import Mathlib

/-
  Shallow embedding of the telegram-claude-bridge Chrome extension:
  the content script (message pipeline, DOM locators, text injection,
  attachment accumulator, TTS engine) and the background service worker
  (WebSocket reconnect policy).  Definitions mirror the JavaScript source;
  theorems settle the frozen claims.
-/

set_option maxRecDepth 100000

namespace Bridge

/-- JS truthiness of an optional string field (`undefined`, `null` and `""`
are falsy; any non-empty string is truthy). -/
def truthy : Option String → Bool
  | none => false
  | some s => !s.isEmpty

/-- JS string interpolation of a possibly-undefined field
(template literals render `undefined` as the string "undefined"). -/
def optStr : Option String → String
  | none => "undefined"
  | some s => s

/-- Inbound message envelope (fields of the JSON object the content script
destructures in `processMessage`).  All payload fields are optional. -/
structure Envelope where
  sender : String
  content_type : String
  text : Option String := none
  caption : Option String := none
  file_data : Option String := none
  file_name : Option String := none
  mime_type : Option String := none
  deriving Repr, DecidableEq

/-- The content script's `CONFIG` object, with its source defaults. -/
structure Config where
  attributionPref : Bool := true   -- source field: attributionPrefix
  autoSend : Bool := true
  messageDelay : Nat := 500
  attachmentDelay : Nat := 2000
  showNotifications : Bool := true
  deriving Repr, DecidableEq

/-- Observable pipeline actions: each constructor records one call the
content script makes while processing envelopes.  `attach` is a call to
`attachFile`, `inject` a call to `injectText`, `send` a call to
`clickSend`, `sleep` an awaited delay, `accumulate`/`flush` calls into
the attachment accumulator. -/
inductive Ev where
  | attach (data filename mime : String)
  | toast (msg : String)
  | inject (text : String)
  | sleep (ms : Nat)
  | send
  | accumulate (filename : String)
  | flush (n : Nat)
  deriving Repr, DecidableEq

/-- `['file', 'image', 'voice_audio']` — content types carrying a file. -/
def recognizedFileTypes : List String := ["file", "image", "voice_audio"]

/-- The attribution prefix applied in `processMessage`:
`[${sender}]: ${body}` when `CONFIG.attributionPrefix` is set. -/
def attributed (cfg : Config) (sender body : String) : String :=
  if cfg.attributionPref then "[" ++ sender ++ "]: " ++ body else body

/-- `showToast` (UI side effect; emits nothing when notifications are off). -/
def showToast (cfg : Config) (msg : String) : List Ev :=
  if cfg.showNotifications then [Ev.toast msg] else []

/-- `processMessage` as an event trace.  Mirrors the source's control flow:
a file-bearing envelope of recognized type is attached immediately; if a
caption accompanies it the caption is injected and (with auto-send) send
is clicked after `attachmentDelay`; otherwise the function returns.  A
text / transcribed-voice envelope is injected and (with auto-send) send is
clicked after `messageDelay`.  Any other envelope falls through with no
action. -/
def processMessage (cfg : Config) (m : Envelope) : List Ev :=
  if truthy m.file_data ∧ m.content_type ∈ recognizedFileTypes then
    [Ev.attach (optStr m.file_data) (optStr m.file_name) (optStr m.mime_type)]
      ++ showToast cfg ("📎 " ++ m.sender ++ " attached: " ++ optStr m.file_name)
      ++ (if truthy m.caption then
            let textContent := attributed cfg m.sender (optStr m.caption)
            [Ev.inject textContent]
              ++ showToast cfg ("💬 " ++ m.sender ++ ": " ++ (optStr m.caption).take 50 ++ "...")
              ++ (if cfg.autoSend then [Ev.sleep cfg.attachmentDelay, Ev.send] else [])
          else [])
  else if m.content_type = "text" ∨ m.content_type = "voice_transcribed" then
    let textContent := attributed cfg m.sender (optStr m.text)
    [Ev.inject textContent]
      ++ showToast cfg ("💬 " ++ m.sender ++ ": " ++ (optStr m.text).take 50 ++ "...")
      ++ (if cfg.autoSend then [Ev.sleep cfg.messageDelay, Ev.send] else [])
  else []

/-- A queued pending attachment (`pendingAttachments` element). -/
structure Attachment where
  base64Data : String
  filename : String
  mimeType : String
  sender : String
  deriving Repr, DecidableEq

/-- `accumulateAttachment`: push onto the pending collection and notify. -/
def accumulateAttachment (cfg : Config) (pending : List Attachment)
    (a : Attachment) : List Attachment × List Ev :=
  (pending ++ [a],
   [Ev.accumulate a.filename]
     ++ showToast cfg ("📎 Queued: " ++ a.filename ++ " from " ++ a.sender))

/-- `flushAttachments`: attach every queued item in arrival order, pacing
each with a 200 ms delay, then clear the collection and return the count. -/
def flushAttachments (pending : List Attachment) : List Attachment × Nat × List Ev :=
  if pending.isEmpty then (pending, 0, [])
  else
    ([], pending.length,
     Ev.flush pending.length ::
       (pending.flatMap fun a =>
         [Ev.attach a.base64Data a.filename a.mimeType, Ev.sleep 200]))

/-! ### Message queue / single-flight worker (`handleMessage` / `processQueue`)

The content script is single-threaded: `handleMessage` appends the envelope
to `messageQueue` and calls `processQueue`, which returns immediately when
`isProcessing` is set; the one live `processQueue` loop shifts envelopes off
the head and awaits `processMessage` for each, then sleeps 300 ms.  Arrivals
during an awaited delay only push onto the queue's tail and emit no DOM
operation, so each envelope's DOM events form one contiguous block.  We model
a run as an interleaving of `arrive` actions (a `handleMessage` call) and
`work` actions (the worker loop completing the envelope at the queue's head,
appending its whole event block to the trace). -/

/-- One scheduler action: an envelope arriving, or the worker completing
the next queued envelope. -/
inductive PAct where
  | arrive (m : Envelope)
  | work
  deriving Repr, DecidableEq

/-- Pipeline state: the live queue plus ghost fields recording arrival
order, processing order and the emitted DOM-event trace.
`pending` is the `pendingAttachments` global (untouched by the pipeline). -/
structure QState where
  queue : List Envelope
  arrivals : List Envelope
  processed : List Envelope
  trace : List Ev
  pending : List Attachment
  deriving Repr, DecidableEq

def QState.init : QState := ⟨[], [], [], [], []⟩

/-- The block of events the worker emits for one envelope: its
`processMessage` trace followed by the fixed 300 ms inter-message pause. -/
def workerBlock (cfg : Config) (m : Envelope) : List Ev :=
  processMessage cfg m ++ [Ev.sleep 300]

/-- One scheduler step.  `arrive` is `handleMessage`: push to the tail.
`work` is the worker loop body: shift the head envelope and emit its block
(a no-op when the queue is empty, matching the loop's exit condition). -/
def stepQ (cfg : Config) (s : QState) : PAct → QState
  | PAct.arrive m => { s with queue := s.queue ++ [m], arrivals := s.arrivals ++ [m] }
  | PAct.work =>
    match s.queue with
    | [] => s
    | m :: rest =>
      { s with queue := rest, processed := s.processed ++ [m],
               trace := s.trace ++ workerBlock cfg m }

/-- A pipeline run from the initial state over a list of actions. -/
def runQ (cfg : Config) (acts : List PAct) : QState :=
  acts.foldl (stepQ cfg) QState.init

/-- Convenience: process a list of envelopes to completion
(each arrival followed by a worker completion). -/
def pipelineRun (cfg : Config) (ms : List Envelope) : QState :=
  runQ cfg (ms.flatMap fun m => [PAct.arrive m, PAct.work])

/-! ### Background service worker: reconnect policy (`background.js`) -/

/-- `background.js` `CONFIG`, with its source defaults. -/
structure BgConfig where
  reconnectDelay : Nat := 3000
  maxReconnectDelay : Nat := 30000
  deriving Repr, DecidableEq

/-- The delay `scheduleReconnect` computes from the current value of
`reconnectAttempts`: `Math.min(reconnectDelay * 2 ** attempts, maxReconnectDelay)`. -/
def scheduleDelay (cfg : BgConfig) (attempts : Nat) : Nat :=
  min (cfg.reconnectDelay * 2 ^ attempts) cfg.maxReconnectDelay

/-- `scheduleReconnect`: compute the delay from the current counter, then
increment the counter.  Returns (scheduled delay, new counter). -/
def scheduleReconnect (cfg : BgConfig) (attempts : Nat) : Nat × Nat :=
  (scheduleDelay cfg attempts, attempts + 1)

/-- `ws.onopen`: a successful open resets `reconnectAttempts` to 0. -/
def onOpen (_ : Nat) : Nat := 0

/-- The delays scheduled by `n` consecutive failures starting from counter
value `attempts` (each failure calls `scheduleReconnect`). -/
def failureDelays (cfg : BgConfig) (attempts : Nat) : Nat → List Nat
  | 0 => []
  | n + 1 =>
    let r := scheduleReconnect cfg attempts
    r.1 :: failureDelays cfg r.2 n

/-- The counter after `n` consecutive failures starting from `attempts`. -/
def failureCounter (attempts : Nat) (n : Nat) : Nat := attempts + n

/-! ### Ingestion (`handleMessage`)

The port message is the envelope plus a transport `type` tag.  The source's
`handleMessage` returns early for any `message.type !== 'message'`; every
other message is pushed onto `messageQueue` unconditionally (no inspection
of `content_type` happens before `processMessage`). -/

/-- A message delivered over the background/content port: an envelope with
the transport-level `type` field (named `mtype` here). -/
structure PortMsg extends Envelope where
  mtype : String
  deriving Repr, DecidableEq

/-- `handleMessage`: returns the new queue and whether the message was
enqueued.  Only the transport `type` is checked at ingestion. -/
def handleMessage (queue : List PortMsg) (m : PortMsg) : List PortMsg × Bool :=
  if m.mtype ≠ "message" then (queue, false) else (queue ++ [m], true)

/-- All `content_type` values the pipeline recognizes (acts upon). -/
def recognizedContentTypes : List String :=
  ["text", "voice_transcribed", "file", "image", "voice_audio"]

/-! ### DOM locators (`getInputField` / `getSendButton` / `getDropZone` /
`getFileInput`)

A document is modelled as an ordered element list; an element records which
selector strings it matches (`attrs`) and its `disabled` flag.
`querySelector` returns the first element in document order matching the
selector.  Selectors the engine rejects (the `:has()` case handled by
`getSendButton`'s try/catch) are listed in `unsupported`. -/

/-- A DOM element, identified by `eid`; `attrs` is the set of selector
strings it matches. -/
structure DElem where
  eid : Nat
  attrs : List String := []
  disabled : Bool := false
  deriving Repr, DecidableEq

/-- A document: elements in document order, selectors that throw, and the
`document.body` element. -/
structure Doc where
  elems : List DElem
  unsupported : List String := []
  body : DElem
  deriving Repr, DecidableEq

/-- `document.querySelector(s)`: first element in document order matching `s`. -/
def querySelector (d : Doc) (s : String) : Option DElem :=
  d.elems.find? fun e => e.attrs.contains s

/-- First selector in `sels` that resolves, in order (the shared loop shape
of `getInputField` and `getDropZone`). -/
def findFirst (d : Doc) : List String → Option DElem
  | [] => none
  | s :: rest =>
    match querySelector d s with
    | some e => some e
    | none => findFirst d rest

/-- `getInputField`'s ordered selector list. -/
def inputSelectors : List String :=
  ["[contenteditable=\"true\"][data-placeholder]",
   "div[contenteditable=\"true\"].ProseMirror",
   "div.ProseMirror[contenteditable=\"true\"]",
   "[data-testid=\"composer-input\"]",
   "[contenteditable=\"true\"]"]

/-- `getInputField`: first selector match, else `null` after dumping input
candidates.  The second component records whether the diagnostic
enumeration (`dumpInputCandidates`) ran. -/
def getInputField (d : Doc) : Option DElem × Bool :=
  match findFirst d inputSelectors with
  | some e => (some e, false)
  | none => (none, true)

/-- `getSendButton`'s ordered selector list. -/
def sendSelectors : List String :=
  ["button[aria-label=\"Send message\"]",
   "button[aria-label=\"Send Message\"]",
   "button[data-testid=\"send-button\"]",
   "button:has(svg[data-icon=\"arrow-up\"])",
   "form button[type=\"submit\"]",
   "button[type=\"submit\"]"]

/-- The loop of `getSendButton`: a selector that throws is caught and
skipped; a match is returned only if not disabled, otherwise the next
selector is tried. -/
def findSendIn (d : Doc) : List String → Option DElem
  | [] => none
  | s :: rest =>
    if s ∈ d.unsupported then findSendIn d rest
    else
      match querySelector d s with
      | some e => if !e.disabled then some e else findSendIn d rest
      | none => findSendIn d rest

/-- `getSendButton`: first enabled match, else `null` after dumping button
candidates (second component = diagnostic enumeration ran). -/
def getSendButton (d : Doc) : Option DElem × Bool :=
  match findSendIn d sendSelectors with
  | some e => (some e, false)
  | none => (none, true)

/-- `getDropZone`'s ordered selector list. -/
def dropSelectors : List String :=
  ["[data-drop-target=\"true\"]",
   "[data-testid=\"drop-zone\"]",
   ".drop-zone",
   "form",
   "main"]

/-- `getDropZone`: first selector match, else `document.body` (a warning is
logged but no diagnostic enumeration runs and `null` is never returned). -/
def getDropZone (d : Doc) : DElem :=
  match findFirst d dropSelectors with
  | some e => e
  | none => d.body

/-- `getFileInput`: over `querySelectorAll('input[type="file"]')`, the
first non-disabled input, else `inputs[0] || null` (no diagnostic
enumeration in either case). -/
def getFileInput (d : Doc) : Option DElem :=
  let inputs := d.elems.filter fun e => e.attrs.contains "input[type=\"file\"]"
  match inputs.find? (fun e => !e.disabled) with
  | some e => some e
  | none => inputs.head?

/-! ### Text injection (`injectText`) -/

/-- The state of the located contenteditable input field. -/
structure InputState where
  content : String
  focused : Bool := false
  caretAtEnd : Bool := false
  deriving Repr, DecidableEq

/-- The DOM operations `injectText` performs on the field, in order. -/
inductive InjEv where
  | focus
  | setContent (s : String)
  | caretToEnd
  | dispatch (etype : String)
  deriving Repr, DecidableEq

/-- The body of `injectText` acting on the located field: focus, compute
`existingText ? existing + "\n" + text : text`, set `textContent`, collapse
the selection to the end, then dispatch `InputEvent('input')`,
`Event('input')`, `Event('change')`, `keydown`, `keyup`. -/
def injectTextField (st : InputState) (text : String) : InputState × List InjEv :=
  let existing := st.content
  let newText := if !existing.isEmpty then existing ++ "\n" ++ text else text
  ({ content := newText, focused := true, caretAtEnd := true },
   [InjEv.focus, InjEv.setContent newText, InjEv.caretToEnd,
    InjEv.dispatch "input", InjEv.dispatch "input", InjEv.dispatch "change",
    InjEv.dispatch "keydown", InjEv.dispatch "keyup"])

/-- `injectText` including the locator step: throws when no input field is
found. -/
def injectText (field : Option InputState) (text : String) :
    Except String (InputState × List InjEv) :=
  match field with
  | none => Except.error "Input field not found"
  | some st => Except.ok (injectTextField st text)

/-! ### TTS language configuration (`TTS_LANGUAGES`)

Every source pattern is a one-character class with the `g` flag, so
`(text.match(pattern) || []).length` equals the number of characters of the
text satisfying the class.  Each class is embedded as a `Char` predicate. -/

/-- German-specific characters: `[äöüßÄÖÜẞ]`. -/
def isGermanChar (c : Char) : Bool :=
  c ∈ ['ä', 'ö', 'ü', 'ß', 'Ä', 'Ö', 'Ü', 'ẞ']

/-- French-specific characters: `[àâæçéèêëîïôùûüœÀÂÆÇÉÈÊËÎÏÔÙÛÜŒ«»]`. -/
def isFrenchChar (c : Char) : Bool :=
  c ∈ ['à', 'â', 'æ', 'ç', 'é', 'è', 'ê', 'ë', 'î', 'ï', 'ô', 'ù', 'û', 'ü', 'œ',
       'À', 'Â', 'Æ', 'Ç', 'É', 'È', 'Ê', 'Ë', 'Î', 'Ï', 'Ô', 'Ù', 'Û', 'Ü', 'Œ',
       '«', '»']

/-- CJK Unified Ideographs: `[一-鿿]`. -/
def isChineseChar (c : Char) : Bool :=
  0x4E00 ≤ c.val && c.val ≤ 0x9FFF

/-- Hiragana + Katakana: `[぀-ゟ゠-ヿ]`. -/
def isJapaneseChar (c : Char) : Bool :=
  (0x3040 ≤ c.val && c.val ≤ 0x309F) || (0x30A0 ≤ c.val && c.val ≤ 0x30FF)

/-- Hangul: `[가-힯]`. -/
def isKoreanChar (c : Char) : Bool :=
  0xAC00 ≤ c.val && c.val ≤ 0xD7AF

/-- Arabic: `[؀-ۿ]`. -/
def isArabicChar (c : Char) : Bool :=
  0x0600 ≤ c.val && c.val ≤ 0x06FF

/-- Cyrillic: `[Ѐ-ӿ]`. -/
def isRussianChar (c : Char) : Bool :=
  0x0400 ≤ c.val && c.val ≤ 0x04FF

/-- Latin letters: `[a-zA-Z]` (the default/English entry's pattern). -/
def isEnglishChar (c : Char) : Bool :=
  ('a' ≤ c && c ≤ 'z') || ('A' ≤ c && c ≤ 'Z')

/-- One `TTS_LANGUAGES` entry (`langPref` embeds the source's `langPrefix`
field). -/
structure TTSLang where
  name : String
  pat : Char → Bool
  langPref : String
  isDefault : Bool := false

/-- The `TTS_LANGUAGES` table, in source order; the default (English/Latin)
entry is last. -/
def TTS_LANGUAGES : List TTSLang :=
  [⟨"German", isGermanChar, "de", false⟩,
   ⟨"French", isFrenchChar, "fr", false⟩,
   ⟨"Chinese", isChineseChar, "zh", false⟩,
   ⟨"Japanese", isJapaneseChar, "ja", false⟩,
   ⟨"Korean", isKoreanChar, "ko", false⟩,
   ⟨"Arabic", isArabicChar, "ar", false⟩,
   ⟨"Russian", isRussianChar, "ru", false⟩,
   ⟨"English", isEnglishChar, "en", true⟩]

/-- `(text.match(lang.pattern) || []).length` for a one-character class:
the number of characters of `text` matching the class. -/
def matchCount (pat : Char → Bool) (text : String) : Nat :=
  (text.toList.filter pat).length

/-- A language paired with its match count for the current text. -/
structure LangCount where
  lang : TTSLang
  count : Nat

/-- The per-language counts computed at the top of `pickVoiceForText`. -/
def langCounts (text : String) : List LangCount :=
  TTS_LANGUAGES.map fun l => ⟨l, matchCount l.pat text⟩

/-- `nonDefault.reduce((a, b) => a.count > b.count ? a : b)`. -/
def maxByCount (hd : LangCount) (tl : List LangCount) : LangCount :=
  tl.foldl (fun a b => if b.count < a.count then a else b) hd

/-- The detection block of `pickVoiceForText` over the computed counts:
`nonDefault` keeps the non-default entries with positive counts
(`!l.isDefault && l.count > 0`); the non-default entry with the most
matches wins only when its count strictly exceeds the default language's
count; otherwise the default entry wins (`detected = defaultLang ||
counts[0]` when no non-default entry has matches). -/
def detectCore (counts : List LangCount) : LangCount :=
  let nonDefault := counts.filter fun lc => !lc.lang.isDefault && decide (0 < lc.count)
  let defaultLang := counts.find? fun lc => lc.lang.isDefault
  match nonDefault with
  | [] =>
    match defaultLang with
    | some d => d
    | none => counts.headD ⟨⟨"English", isEnglishChar, "en", true⟩, 0⟩
  | hd :: tl =>
    let top := maxByCount hd tl
    match defaultLang with
    | some d => if d.count < top.count then top else d
    | none => top

/-- Language detection for a text: `detectCore` over the per-language
counts. -/
def detectLanguage (text : String) : LangCount :=
  detectCore (langCounts text)

/-- A speech-synthesis voice (the fields `pickVoiceForText` reads). -/
structure Voice where
  name : String
  lang : String
  deriving Repr, DecidableEq

/-- JS `String.prototype.includes` on lower-cased haystack. -/
def containsSub (hay needle : String) : Bool :=
  1 < (hay.splitOn needle).length

/-- `preferGoogle`: the first voice whose lower-cased name contains
"google", else the first voice of the list. -/
def preferGoogle (voiceList : List Voice) : Option Voice :=
  match voiceList.find? (fun v => containsSub v.name.toLower "google") with
  | some v => some v
  | none => voiceList.head?

/-- `pickVoiceForText`: detect the language, then prefer a voice whose
locale starts with the detected prefix, falling back to English-locale
voices and finally the first voice. -/
def pickVoiceForText (voices : List Voice) (text : String) : Option Voice :=
  if voices.isEmpty then none
  else
    let detected := detectLanguage text
    let matchingVoices := voices.filter fun v => v.lang.startsWith detected.lang.langPref
    if !matchingVoices.isEmpty then preferGoogle matchingVoices
    else
      let enVoices := voices.filter fun v => v.lang.startsWith "en"
      if !enVoices.isEmpty then preferGoogle enVoices
      else voices.head?

/-! ### Transcript speech engine state (`TTS`)

The mutation-observer callback, `processResponseElement` and `toggle` are
embedded as transitions on an explicit state.  DOM reads are abstracted
into a snapshot: a response element carries its `innerText` and the text
`processResponseElement`'s selector walk extracts from it (visible response
bodies only — collapsed reasoning sub-blocks excluded by the ancestor
height/opacity filter, which lives in the DOM and is summarized by the
`extracted` field). -/

/-- A response element as the engine reads it. -/
structure RElem where
  eid : Nat
  innerTextStr : String
  extracted : String
  deriving Repr, DecidableEq

/-- The streaming container (`[data-is-streaming="true"]`) and its optional
`.progressive-markdown` child. -/
structure StreamingView where
  eid : Nat
  progressive : Option RElem
  deriving Repr, DecidableEq

/-- The DOM snapshot the observer callback (and `toggle`) queries:
the streaming container if one exists, the latest completed response
(`[data-is-streaming="false"] .font-claude-response`), and the latest
response under the broader `.font-claude-response` selector `toggle` uses. -/
structure DomSnap where
  streaming : Option StreamingView
  completedLatest : Option RElem
  anyResponseLatest : Option RElem
  deriving Repr, DecidableEq

/-- The `TTS` object's mutable fields relevant to the transcript cursor. -/
structure TTSState where
  enabled : Bool := false
  unlocked : Bool := false
  lastSpokenLength : Nat := 0
  pendingText : String := ""
  speakTimeout : Bool := false
  lastStreamingElement : Option Nat := none
  deriving Repr, DecidableEq

/-- `text.replace(/\s+/g, ' ').trim()`. -/
def normalizeWS (s : String) : String :=
  " ".intercalate ((s.split Char.isWhitespace).filter fun w => !w.isEmpty)

/-- `processResponseElement`: extract and normalize the visible body text;
when its length exceeds the cursor, append the new slice to the pending
buffer, advance the cursor, and (re-)arm the debounce timer. -/
def processResponseElement (st : TTSState) (el : RElem) : TTSState :=
  let text := normalizeWS el.extracted
  if st.lastSpokenLength < text.length then
    { st with lastSpokenLength := text.length,
              pendingText := st.pendingText ++ text.drop st.lastSpokenLength,
              speakTimeout := true }
  else st

/-- One run of the mutation-observer callback over a DOM snapshot.  When a
streaming container exists and differs from the tracked one, the cursor
resets (length 0, buffer cleared, debounce cancelled) and the container is
tracked; then the progressive block, if present, is processed.  With no
streaming container the tracked reference is cleared and the latest
completed response is processed only if its raw `innerText` is longer than
the cursor. -/
def observerStep (st : TTSState) (dom : DomSnap) : TTSState :=
  if !st.enabled then st
  else
    match dom.streaming with
    | some sv =>
      let st1 :=
        if st.lastStreamingElement ≠ some sv.eid then
          { st with lastSpokenLength := 0, pendingText := "",
                    speakTimeout := false, lastStreamingElement := some sv.eid }
        else st
      match sv.progressive with
      | some p => processResponseElement st1 p
      | none => st1
    | none =>
      let st1 := { st with lastStreamingElement := none }
      match dom.completedLatest with
      | some latest =>
        if st1.lastSpokenLength < latest.innerTextStr.length then
          processResponseElement st1 latest
        else st1
      | none => st1

/-- `TTS.toggle()`: a user gesture unlocks audio and flips `enabled`.
Disabling cancels speech.  Enabling marks current content as already
spoken: with a streaming progressive block the cursor is set to its
`innerText` length (and the container tracked); otherwise to the latest
`.font-claude-response` element's `innerText` length.  The pending buffer
is cleared in both cases. -/
def TTS.toggle (st : TTSState) (dom : DomSnap) : TTSState :=
  let st0 := { st with unlocked := true, enabled := !st.enabled }
  if !st0.enabled then { st0 with pendingText := "" }
  else
    let st1 :=
      match dom.streaming with
      | some sv =>
        match sv.progressive with
        | some p =>
          { st0 with lastSpokenLength := p.innerTextStr.length,
                     lastStreamingElement := some sv.eid }
        | none => st0
      | none =>
        match dom.anyResponseLatest with
        | some latest => { st0 with lastSpokenLength := latest.innerTextStr.length }
        | none => st0
    { st1 with pendingText := "" }

/-- `TTS.stop()` (also the body of `TTS.reset()`, run on `popstate`
navigation): cancel speech and zero the cursor. -/
def TTS.stop (st : TTSState) : TTSState :=
  { st with lastSpokenLength := 0 }

/-! ### Concrete inputs used by scenario theorems -/

/-- The source defaults of the content script `CONFIG`. -/
def defaultConfig : Config := {}

/-- The source defaults of the background `CONFIG`. -/
def defaultBgConfig : BgConfig := {}

/-- A captionless image envelope (base64 payload "QUJD" = "ABC"). -/
def imgEnvelope : Envelope :=
  { sender := "Ana", content_type := "image", file_data := some "QUJD",
    file_name := some "x.png", mime_type := some "image/png" }

/-- A plain text envelope from the same sender. -/
def textEnvelope : Envelope :=
  { sender := "Ana", content_type := "text", text := some "hello" }

/-- Events belonging to the attachment accumulator. -/
def isAccumOrFlush : Ev → Bool
  | Ev.accumulate _ => true
  | Ev.flush _ => true
  | _ => false

/-- `attachFile` call events. -/
def isAttach : Ev → Bool
  | Ev.attach _ _ _ => true
  | _ => false

/-! ### Pipeline invariant lemmas -/

theorem stepQ_inv (cfg : Config) (s : QState) (a : PAct)
    (h1 : s.processed ++ s.queue = s.arrivals)
    (h2 : s.trace = (s.processed.map (workerBlock cfg)).flatten) :
    (stepQ cfg s a).processed ++ (stepQ cfg s a).queue = (stepQ cfg s a).arrivals ∧
    (stepQ cfg s a).trace = ((stepQ cfg s a).processed.map (workerBlock cfg)).flatten := by
  cases a with
  | arrive m =>
    refine ⟨?_, by simpa [stepQ] using h2⟩
    simp [stepQ, ← h1]
  | work =>
    cases hq : s.queue with
    | nil => exact ⟨by simpa [stepQ, hq] using h1, by simpa [stepQ, hq] using h2⟩
    | cons m rest =>
      have hs : stepQ cfg s PAct.work
          = { s with queue := rest, processed := s.processed ++ [m],
                     trace := s.trace ++ workerBlock cfg m } := by
        simp [stepQ, hq]
      rw [hs]
      refine ⟨?_, ?_⟩
      · rw [← h1, hq]; simp
      · simp [h2]

theorem foldl_stepQ_inv (cfg : Config) (acts : List PAct) :
    ∀ s : QState, s.processed ++ s.queue = s.arrivals →
      s.trace = (s.processed.map (workerBlock cfg)).flatten →
      ((acts.foldl (stepQ cfg) s).processed ++ (acts.foldl (stepQ cfg) s).queue
          = (acts.foldl (stepQ cfg) s).arrivals ∧
        (acts.foldl (stepQ cfg) s).trace
          = ((acts.foldl (stepQ cfg) s).processed.map (workerBlock cfg)).flatten) := by
  induction acts with
  | nil => exact fun s h1 h2 => ⟨h1, h2⟩
  | cons a t ih =>
    intro s h1 h2
    have h := stepQ_inv cfg s a h1 h2
    exact ih _ h.1 h.2

/-- C2: For every interleaving of arrivals and worker completions, the
processed envelopes form a prefix of the arrival order (FIFO) and the DOM
trace is exactly the concatenation of each processed envelope's event block
in that order — one envelope in flight at a time, blocks never
interleaved. -/
theorem pipeline_fifo_serialized (cfg : Config) (acts : List PAct) :
    (runQ cfg acts).processed ++ (runQ cfg acts).queue = (runQ cfg acts).arrivals ∧
    (runQ cfg acts).trace
      = ((runQ cfg acts).processed.map (workerBlock cfg)).flatten :=
  foldl_stepQ_inv cfg acts QState.init rfl rfl

theorem showToast_no_accumulate (cfg : Config) (s : String) :
    (showToast cfg s).filter isAccumOrFlush = [] := by
  unfold showToast
  split <;> rfl

theorem processMessage_no_accumulate (cfg : Config) (m : Envelope) :
    (processMessage cfg m).filter isAccumOrFlush = [] := by
  unfold processMessage
  split
  · simp only [List.filter_append, showToast_no_accumulate]
    split
    · simp only [List.filter_append, showToast_no_accumulate]
      split <;> rfl
    · rfl
  · split
    · simp only [List.filter_append, showToast_no_accumulate]
      split <;> rfl
    · rfl

theorem stepQ_clean (cfg : Config) (s : QState) (a : PAct)
    (h1 : s.pending = [])
    (h2 : s.trace.filter isAccumOrFlush = []) :
    (stepQ cfg s a).pending = [] ∧
    (stepQ cfg s a).trace.filter isAccumOrFlush = [] := by
  cases a with
  | arrive m => exact ⟨h1, h2⟩
  | work =>
    cases hq : s.queue with
    | nil => exact ⟨by simpa [stepQ, hq] using h1, by simpa [stepQ, hq] using h2⟩
    | cons m rest =>
      refine ⟨by simpa [stepQ, hq] using h1, ?_⟩
      simp [stepQ, hq, List.filter_append, h2, workerBlock,
            processMessage_no_accumulate, isAccumOrFlush]

theorem foldl_stepQ_clean (cfg : Config) (acts : List PAct) :
    ∀ s : QState, s.pending = [] → s.trace.filter isAccumOrFlush = [] →
      ((acts.foldl (stepQ cfg) s).pending = [] ∧
        (acts.foldl (stepQ cfg) s).trace.filter isAccumOrFlush = []) := by
  induction acts with
  | nil => exact fun s h1 h2 => ⟨h1, h2⟩
  | cons a t ih =>
    intro s h1 h2
    have h := stepQ_clean cfg s a h1 h2
    exact ih _ h.1 h.2

/-- C10: No envelope-processing path ever invokes the attachment
accumulator: across every pipeline run the pending-attachments collection
stays empty and the trace contains no accumulate/flush event. -/
theorem pipeline_pending_stays_empty (cfg : Config) (acts : List PAct) :
    (runQ cfg acts).pending = [] ∧
    (runQ cfg acts).trace.filter isAccumOrFlush = [] :=
  foldl_stepQ_clean cfg acts QState.init rfl rfl

/-- C1 (counterexample): in the image-then-text scenario the claim's
"accumulated/flushed pending attachments" do not exist — processing the
text envelope performs no attach and no accumulator flush (its block
contains neither event), and the pending collection is empty throughout the
run, so no flushed attachments precede the send. -/
theorem C1_text_envelope_no_flush_counterexample :
    (processMessage defaultConfig textEnvelope).filter
        (fun e => isAttach e || isAccumOrFlush e) = [] ∧
    (pipelineRun defaultConfig [imgEnvelope, textEnvelope]).pending = [] ∧
    (pipelineRun defaultConfig [imgEnvelope, textEnvelope]).trace.filter
        isAccumOrFlush = [] := by
  refine ⟨?_, ?_, ?_⟩ <;> decide

/-- C1 (amended): the captionless image envelope followed by a text
envelope yields exactly one attach call — performed immediately while the
image envelope is processed, not accumulated — then, on the text envelope,
one inject call followed by a single send trigger; no pending attachments
are accumulated or flushed at any point. -/
theorem C1_two_envelope_scenario_amended :
    (pipelineRun defaultConfig [imgEnvelope, textEnvelope]).trace =
      [Ev.attach "QUJD" "x.png" "image/png",
       Ev.toast "📎 Ana attached: x.png",
       Ev.sleep 300,
       Ev.inject "[Ana]: hello",
       Ev.toast "💬 Ana: hello...",
       Ev.sleep 500,
       Ev.send,
       Ev.sleep 300] ∧
    (pipelineRun defaultConfig [imgEnvelope, textEnvelope]).pending = [] :=
  ⟨rfl, rfl⟩

/-! ### Reconnect backoff -/

theorem failureDelays_eq (cfg : BgConfig) (n : Nat) :
    ∀ a : Nat, failureDelays cfg a n
      = (List.range n).map (fun i => scheduleDelay cfg (a + i)) := by
  induction n with
  | zero => intro a; rfl
  | succ k ih =>
    intro a
    rw [failureDelays]
    simp only [scheduleReconnect]
    rw [ih (a + 1), List.range_succ_eq_map, List.map_cons, List.map_map]
    have hfun : ((fun i => scheduleDelay cfg (a + i)) ∘ Nat.succ)
        = (fun i => scheduleDelay cfg (a + 1 + i)) := by
      funext i
      simp only [Function.comp_apply]
      congr 1
      omega
    rw [hfun]
    simp

/-- C6 (counterexample): with the source defaults (base 3000 ms, cap
30000 ms), the delay scheduled upon the first failure (N = 1) is 3000 ms,
not `min(base · 2^1, max) = 6000 ms` as the claim's formula demands. -/
theorem C6_first_failure_delay_counterexample :
    failureDelays defaultBgConfig 0 1 = [3000] ∧
    min (defaultBgConfig.reconnectDelay * 2 ^ 1)
        defaultBgConfig.maxReconnectDelay = 6000 ∧
    (3000 : Nat) ≠ 6000 := by decide

/-- C6 (amended): starting from a zero counter, the delay scheduled on the
i-th consecutive failure (i counted from 1) equals
`min(base · 2^(i−1), max)` — the counter is read before being incremented —
the counter is incremented once per failure (after N failures it is N), and
a successful open resets it to 0. -/
theorem reconnect_backoff_amended (cfg : BgConfig) (n : Nat) :
    failureDelays cfg 0 n
      = (List.range n).map
          (fun i => min (cfg.reconnectDelay * 2 ^ i) cfg.maxReconnectDelay) ∧
    failureCounter 0 n = n ∧
    onOpen (failureCounter 0 n) = 0 := by
  refine ⟨?_, by simp [failureCounter], rfl⟩
  rw [failureDelays_eq cfg n 0]
  simp [scheduleDelay]

/-! ### Send policy for file-bearing envelopes -/

/-- `clickSend` call events. -/
def isSend : Ev → Bool
  | Ev.send => true
  | _ => false

theorem showToast_filter_send (cfg : Config) (s : String) :
    (showToast cfg s).filter isSend = [] := by
  unfold showToast
  split <;> rfl

/-- C3: with auto-send enabled, a file-bearing envelope of recognized
content type triggers no send when it carries no caption, and exactly one
send when it does, the send immediately following the attachment settle
delay at the very end of the envelope's processing. -/
theorem file_envelope_send_policy (cfg : Config) (m : Envelope)
    (hfile : truthy m.file_data = true)
    (hrec : m.content_type ∈ recognizedFileTypes)
    (hauto : cfg.autoSend = true) :
    (truthy m.caption = false → (processMessage cfg m).filter isSend = []) ∧
    (truthy m.caption = true →
      (processMessage cfg m).filter isSend = [Ev.send] ∧
      ∃ pre, processMessage cfg m
        = pre ++ [Ev.sleep cfg.attachmentDelay, Ev.send]) := by
  constructor
  · intro hcap
    simp [processMessage, hfile, hrec, hcap, List.filter_append,
          showToast_filter_send, isSend]
  · intro hcap
    constructor
    · simp [processMessage, hfile, hrec, hcap, hauto, List.filter_append,
            showToast_filter_send, isSend]
    · refine ⟨[Ev.attach (optStr m.file_data) (optStr m.file_name) (optStr m.mime_type)]
        ++ showToast cfg ("📎 " ++ m.sender ++ " attached: " ++ optStr m.file_name)
        ++ [Ev.inject (attributed cfg m.sender (optStr m.caption))]
        ++ showToast cfg ("💬 " ++ m.sender ++ ": " ++ (optStr m.caption).take 50 ++ "..."),
        ?_⟩
      simp [processMessage, hfile, hrec, hcap, hauto]

/-- An image envelope carrying a caption (C3 witness input). -/
def capImgEnvelope : Envelope :=
  { sender := "Ana", content_type := "image", file_data := some "QUJD",
    file_name := some "x.png", mime_type := some "image/png",
    caption := some "look" }

/-- Witness for C3 at a concrete captioned image envelope. -/
theorem file_envelope_send_policy_witness :
    (truthy capImgEnvelope.caption = false →
      (processMessage defaultConfig capImgEnvelope).filter isSend = []) ∧
    (truthy capImgEnvelope.caption = true →
      (processMessage defaultConfig capImgEnvelope).filter isSend = [Ev.send] ∧
      ∃ pre, processMessage defaultConfig capImgEnvelope
        = pre ++ [Ev.sleep defaultConfig.attachmentDelay, Ev.send]) :=
  file_envelope_send_policy defaultConfig capImgEnvelope (by decide) (by decide) rfl

/-! ### Ingestion of unknown content types -/

/-- A port message whose `content_type` is not a recognized value. -/
def stickerMsg : PortMsg :=
  { sender := "B", content_type := "sticker", mtype := "message" }

/-- C7 (counterexample): an envelope frame with the unrecognized
content type "sticker" is NOT dropped at ingestion — `handleMessage`
enqueues it, because ingestion only checks the transport-level `type`
field. -/
theorem C7_unknown_type_enqueued_counterexample :
    stickerMsg.content_type ∉ recognizedContentTypes ∧
    handleMessage [] stickerMsg = ([stickerMsg], true) := by
  refine ⟨by decide, by decide⟩

/-- C7 (amended): ingestion filters only on the transport `type` field —
every `message`-typed frame is enqueued regardless of `content_type` — and
envelopes whose `content_type` is unrecognized are dropped at processing
instead: `processMessage` performs no action on them, so `content_type`
still determines which of text/caption/file_data are acted upon. -/
theorem ingestion_and_unknown_content_types (cfg : Config)
    (q : List PortMsg) (m : PortMsg) :
    ((handleMessage q m).2 = true ↔ m.mtype = "message") ∧
    (m.mtype = "message" → (handleMessage q m).1 = q ++ [m]) ∧
    (m.content_type ∉ recognizedContentTypes →
      processMessage cfg m.toEnvelope = []) := by
  refine ⟨?_, ?_, ?_⟩
  · unfold handleMessage
    split
    · simp_all
    · simp_all
  · intro h
    simp [handleMessage, h]
  · intro h
    simp only [recognizedContentTypes, List.mem_cons, List.not_mem_nil, or_false,
               not_or] at h
    obtain ⟨h1, h2, h3, h4, h5⟩ := h
    simp [processMessage, recognizedFileTypes, h1, h2, h3, h4, h5, truthy]

/-- Witness for C7's amended theorem at the concrete sticker message. -/
theorem ingestion_and_unknown_content_types_witness :
    (handleMessage [] stickerMsg).1 = [stickerMsg] ∧
    processMessage defaultConfig stickerMsg.toEnvelope = [] :=
  ⟨(ingestion_and_unknown_content_types defaultConfig [] stickerMsg).2.1 rfl,
   (ingestion_and_unknown_content_types defaultConfig [] stickerMsg).2.2 (by decide)⟩

/-! ### Locator lemmas -/

theorem findFirst_eq_none_iff (d : Doc) (sels : List String) :
    findFirst d sels = none ↔ ∀ s ∈ sels, querySelector d s = none := by
  induction sels with
  | nil => simp [findFirst]
  | cons s rest ih =>
    cases hq : querySelector d s with
    | some e => simp [findFirst, hq, List.forall_mem_cons]
    | none => simp [findFirst, hq, ih, List.forall_mem_cons]

theorem findFirst_some (d : Doc) (sels : List String) (e : DElem) :
    findFirst d sels = some e → ∃ s ∈ sels, querySelector d s = some e := by
  induction sels with
  | nil => simp [findFirst]
  | cons s rest ih =>
    cases hq : querySelector d s with
    | some e2 =>
      intro h
      simp only [findFirst, hq, Option.some.injEq] at h
      exact ⟨s, List.mem_cons_self s rest, by rw [hq, h]⟩
    | none =>
      intro h
      simp only [findFirst, hq] at h
      obtain ⟨s2, hs2, hq2⟩ := ih h
      exact ⟨s2, List.mem_cons_of_mem _ hs2, hq2⟩

theorem findSendIn_eq_none_iff (d : Doc) (sels : List String) :
    findSendIn d sels = none ↔
      ∀ s ∈ sels, s ∉ d.unsupported →
        ∀ e, querySelector d s = some e → e.disabled = true := by
  induction sels with
  | nil => simp [findSendIn]
  | cons s rest ih =>
    by_cases hu : s ∈ d.unsupported
    · simp [findSendIn, hu, ih, List.forall_mem_cons]
    · cases hq : querySelector d s with
      | none => simp [findSendIn, hu, hq, ih, List.forall_mem_cons]
      | some e =>
        by_cases hd : e.disabled
        · simp [findSendIn, hu, hq, hd, ih, List.forall_mem_cons]
        · simp [findSendIn, hu, hq, hd, List.forall_mem_cons]

theorem findSendIn_some_enabled (d : Doc) (sels : List String) (e : DElem) :
    findSendIn d sels = some e → e.disabled = false := by
  induction sels with
  | nil => simp [findSendIn]
  | cons s rest ih =>
    by_cases hu : s ∈ d.unsupported
    · simpa [findSendIn, hu] using ih
    · cases hq : querySelector d s with
      | none => simpa [findSendIn, hu, hq] using ih
      | some e2 =>
        by_cases hd : e2.disabled
        · simpa [findSendIn, hu, hq, hd] using ih
        · intro h
          simp [findSendIn, hu, hq, hd] at h
          rw [← h]
          simpa using hd

/-- The file-input candidate list
(`document.querySelectorAll('input[type="file"]')`, in document order). -/
def fileInputs (d : Doc) : List DElem :=
  d.elems.filter fun e => e.attrs.contains "input[type=\"file\"]"

theorem getFileInput_eq_fileInputs (d : Doc) :
    getFileInput d
      = (match (fileInputs d).find? (fun e => !e.disabled) with
         | some e => some e
         | none => (fileInputs d).head?) := rfl

theorem getFileInput_eq_none_iff (d : Doc) :
    getFileInput d = none ↔ fileInputs d = [] := by
  rw [getFileInput_eq_fileInputs]
  cases hf : (fileInputs d).find? (fun e => !e.disabled) with
  | some e =>
    simp only []
    constructor
    · intro h; exact absurd h (by simp)
    · intro h
      rw [h] at hf
      simp at hf
  | none =>
    simp [List.head?_eq_none_iff]

theorem getFileInput_some (d : Doc) (e : DElem) :
    getFileInput d = some e →
      e ∈ fileInputs d ∧
      (e.disabled = false ∨ ∀ e2 ∈ fileInputs d, e2.disabled = true) := by
  rw [getFileInput_eq_fileInputs]
  cases hf : (fileInputs d).find? (fun e => !e.disabled) with
  | some e2 =>
    intro h
    simp only [Option.some.injEq] at h
    rw [← h]
    refine ⟨List.mem_of_find?_eq_some hf, Or.inl ?_⟩
    have := List.find?_some hf
    simpa using this
  | none =>
    intro h
    simp only [] at h
    refine ⟨List.mem_of_mem_head? h, Or.inr ?_⟩
    intro e2 he2
    have := List.find?_eq_none.mp hf e2 he2
    simpa using this

theorem find?_eq_some_first {α : Type} (p : α → Bool) (l : List α) (e : α)
    (h : l.find? p = some e) :
    ∃ pre post, l = pre ++ e :: post ∧ p e = true ∧ ∀ x ∈ pre, p x = false := by
  induction l with
  | nil => simp at h
  | cons a t ih =>
    by_cases hp : p a = true
    · rw [List.find?_cons_of_pos t hp] at h
      simp only [Option.some.injEq] at h
      subst h
      exact ⟨[], t, rfl, hp, by simp⟩
    · rw [List.find?_cons_of_neg t hp] at h
      obtain ⟨pre, post, heq, hpe, hpre⟩ := ih h
      refine ⟨a :: pre, post, by rw [heq, List.cons_append], hpe, ?_⟩
      intro x hx
      rcases List.mem_cons.mp hx with rfl | hx2
      · exact Bool.not_eq_true _ ▸ Bool.eq_false_iff.mpr (fun hc => hp (hc ▸ rfl))
      · exact hpre x hx2

/-- `querySelector` returns the FIRST element in document order matching
the selector: every earlier element fails it. -/
theorem querySelector_first (d : Doc) (s : String) (e : DElem)
    (h : querySelector d s = some e) :
    ∃ pre post, d.elems = pre ++ e :: post ∧ e.attrs.contains s = true ∧
      ∀ x ∈ pre, x.attrs.contains s = false :=
  find?_eq_some_first _ _ e h

/-- `findFirst` returns the match of the FIRST selector that resolves:
every earlier selector in the list matches no element. -/
theorem findFirst_some_first (d : Doc) (sels : List String) (e : DElem)
    (h : findFirst d sels = some e) :
    ∃ pre s post, sels = pre ++ s :: post ∧ querySelector d s = some e ∧
      ∀ s2 ∈ pre, querySelector d s2 = none := by
  induction sels with
  | nil => simp [findFirst] at h
  | cons s rest ih =>
    cases hq : querySelector d s with
    | some e2 =>
      simp only [findFirst, hq, Option.some.injEq] at h
      exact ⟨[], s, rest, rfl, by rw [hq, h], by simp⟩
    | none =>
      simp only [findFirst, hq] at h
      obtain ⟨pre, s2, post, heq, hq2, hpre⟩ := ih h
      refine ⟨s :: pre, s2, post, by rw [heq, List.cons_append], hq2, ?_⟩
      intro s3 hs3
      rcases List.mem_cons.mp hs3 with rfl | h3
      · exact hq
      · exact hpre s3 h3

/-- `findSendIn` returns the first enabled match of the ordered selector
list: every earlier supported selector either matches nothing or its first
match is disabled (selectors the engine rejects are skipped). -/
theorem findSendIn_some_first (d : Doc) (sels : List String) (e : DElem)
    (h : findSendIn d sels = some e) :
    ∃ pre s post, sels = pre ++ s :: post ∧ s ∉ d.unsupported ∧
      querySelector d s = some e ∧ e.disabled = false ∧
      ∀ s2 ∈ pre, s2 ∉ d.unsupported →
        ∀ e2, querySelector d s2 = some e2 → e2.disabled = true := by
  induction sels with
  | nil => simp [findSendIn] at h
  | cons s rest ih =>
    by_cases hu : s ∈ d.unsupported
    · rw [show findSendIn d (s :: rest) = findSendIn d rest by
          simp [findSendIn, hu]] at h
      obtain ⟨pre, s2, post, heq, hu2, hq2, hd2, hpre⟩ := ih h
      refine ⟨s :: pre, s2, post, by rw [heq, List.cons_append], hu2, hq2, hd2, ?_⟩
      intro s3 hs3 hu3
      rcases List.mem_cons.mp hs3 with rfl | h3
      · exact absurd hu hu3
      · exact hpre s3 h3 hu3
    · cases hq : querySelector d s with
      | none =>
        rw [show findSendIn d (s :: rest) = findSendIn d rest by
            simp [findSendIn, hu, hq]] at h
        obtain ⟨pre, s2, post, heq, hu2, hq2, hd2, hpre⟩ := ih h
        refine ⟨s :: pre, s2, post, by rw [heq, List.cons_append], hu2, hq2, hd2, ?_⟩
        intro s3 hs3 hu3 e2 he2
        rcases List.mem_cons.mp hs3 with rfl | h3
        · rw [hq] at he2
          exact absurd he2 (by simp)
        · exact hpre s3 h3 hu3 e2 he2
      | some e2 =>
        by_cases hdis : e2.disabled = true
        · rw [show findSendIn d (s :: rest) = findSendIn d rest by
              simp [findSendIn, hu, hq, hdis]] at h
          obtain ⟨pre, s2, post, heq, hu2, hq2, hd2, hpre⟩ := ih h
          refine ⟨s :: pre, s2, post, by rw [heq, List.cons_append], hu2, hq2,
                  hd2, ?_⟩
          intro s3 hs3 hu3 e3 he3
          rcases List.mem_cons.mp hs3 with rfl | h3
          · rw [hq] at he3
            simp only [Option.some.injEq] at he3
            rw [← he3]
            exact hdis
          · exact hpre s3 h3 hu3 e3 he3
        · have hdis2 : e2.disabled = false := by simpa using hdis
          rw [show findSendIn d (s :: rest) = some e2 by
              simp [findSendIn, hu, hq, hdis2]] at h
          simp only [Option.some.injEq] at h
          subst h
          exact ⟨[], s, rest, rfl, hu, hq, hdis2, by simp⟩

/-- `getFileInput` priority: a returned element is either the FIRST
non-disabled file input (every earlier file input is disabled), or — when
every file input is disabled — the first file input (`inputs[0]`). -/
theorem getFileInput_first (d : Doc) (e : DElem)
    (h : getFileInput d = some e) :
    (e.disabled = false ∧ ∃ pre post, fileInputs d = pre ++ e :: post ∧
        ∀ x ∈ pre, x.disabled = true) ∨
    ((fileInputs d).head? = some e ∧ ∀ x ∈ fileInputs d, x.disabled = true) := by
  rw [getFileInput_eq_fileInputs] at h
  cases hf : (fileInputs d).find? (fun e => !e.disabled) with
  | some e2 =>
    simp only [hf, Option.some.injEq] at h
    subst h
    obtain ⟨pre, post, heq, hpe, hpre⟩ := find?_eq_some_first _ _ e2 hf
    refine Or.inl ⟨by simpa using hpe, pre, post, heq, ?_⟩
    intro x hx
    simpa using hpre x hx
  | none =>
    simp only [hf] at h
    refine Or.inr ⟨h, ?_⟩
    intro x hx
    have hnx := List.find?_eq_none.mp hf x hx
    simpa using hnx

/-- An empty document (C8 counterexample input): no element matches any
selector. -/
def bareDoc : Doc := { elems := [], body := { eid := 0 } }

/-- C8 (counterexample): the drop-target locator never returns null — on a
document where no drop-zone selector matches any element, `getDropZone`
returns `document.body` (its return type is an element, not an optional
element), contradicting the claim that every locator returns null when no
selector predicate matches. -/
theorem C8_dropzone_fallback_counterexample :
    (∀ s ∈ dropSelectors, querySelector bareDoc s = none) ∧
    getDropZone bareDoc = bareDoc.body := by
  refine ⟨by decide, rfl⟩

/-- C8 (amended): the input-field and send-control locators return the
first element matched by their ordered selector lists — a returned element
is the first element in document order matching the first selector that
resolves, every earlier selector matching nothing (the send control
additionally requires not-disabled, skips selectors the engine rejects,
and moves past selectors whose first match is disabled) — returning null
with a diagnostic enumeration when nothing matches; the drop-target
locator instead falls back to `document.body` (never null, no
enumeration); the file-input locator returns the first non-disabled file
input, else — when every file input is disabled — the first file input,
else null (no enumeration). -/
theorem locator_contract_amended (d : Doc) :
    ((getInputField d).1 = none ↔ ∀ s ∈ inputSelectors, querySelector d s = none) ∧
    ((getInputField d).2 = true ↔ (getInputField d).1 = none) ∧
    (∀ e, (getInputField d).1 = some e →
      ∃ pre s post, inputSelectors = pre ++ s :: post ∧
        querySelector d s = some e ∧
        ∀ s2 ∈ pre, querySelector d s2 = none) ∧
    (∀ s e, querySelector d s = some e →
      ∃ pre post, d.elems = pre ++ e :: post ∧ e.attrs.contains s = true ∧
        ∀ x ∈ pre, x.attrs.contains s = false) ∧
    ((getSendButton d).1 = none ↔
      ∀ s ∈ sendSelectors, s ∉ d.unsupported →
        ∀ e, querySelector d s = some e → e.disabled = true) ∧
    ((getSendButton d).2 = true ↔ (getSendButton d).1 = none) ∧
    (∀ e, (getSendButton d).1 = some e →
      ∃ pre s post, sendSelectors = pre ++ s :: post ∧ s ∉ d.unsupported ∧
        querySelector d s = some e ∧ e.disabled = false ∧
        ∀ s2 ∈ pre, s2 ∉ d.unsupported →
          ∀ e2, querySelector d s2 = some e2 → e2.disabled = true) ∧
    ((∀ s ∈ dropSelectors, querySelector d s = none) → getDropZone d = d.body) ∧
    (getFileInput d = none ↔ fileInputs d = []) ∧
    (∀ e, getFileInput d = some e →
      (e.disabled = false ∧ ∃ pre post, fileInputs d = pre ++ e :: post ∧
          ∀ x ∈ pre, x.disabled = true) ∨
      ((fileInputs d).head? = some e ∧
        ∀ x ∈ fileInputs d, x.disabled = true)) := by
  refine ⟨?_, ?_, ?_, fun s e => querySelector_first d s e, ?_, ?_, ?_, ?_,
          getFileInput_eq_none_iff d, getFileInput_first d⟩
  · rw [← findFirst_eq_none_iff]
    unfold getInputField
    cases findFirst d inputSelectors <;> simp
  · unfold getInputField
    cases findFirst d inputSelectors <;> simp
  · intro e
    unfold getInputField
    cases hf : findFirst d inputSelectors with
    | some e2 =>
      intro h
      simp only [Option.some.injEq] at h
      exact h ▸ findFirst_some_first d inputSelectors e2 hf
    | none => simp
  · rw [← findSendIn_eq_none_iff]
    unfold getSendButton
    cases findSendIn d sendSelectors <;> simp
  · unfold getSendButton
    cases findSendIn d sendSelectors <;> simp
  · intro e
    unfold getSendButton
    cases hf : findSendIn d sendSelectors with
    | some e2 =>
      intro h
      simp only [Option.some.injEq] at h
      exact h ▸ findSendIn_some_first d sendSelectors e2 hf
    | none => simp
  · intro h
    unfold getDropZone
    rw [(findFirst_eq_none_iff d dropSelectors).mpr h]

/-- Witness for C8's amended theorem on the empty document. -/
theorem locator_contract_amended_witness :
    (getInputField bareDoc).1 = none ∧ getDropZone bareDoc = bareDoc.body :=
  ⟨((locator_contract_amended bareDoc).1).mpr (by decide),
   ((locator_contract_amended bareDoc).2.2.2.2.2.2.2.1) (by decide)⟩

/-! ### Text injection contract -/

/-- C9: text injection appends to non-empty existing content on a new line
(and replaces empty content), focuses the input, moves the caret to the
end, and dispatches the input/change/keyboard event sequence only after
mutating the content. -/
theorem injectText_contract (st : InputState) (t : String) :
    ((injectTextField st t).1.content
        = if st.content = "" then t else st.content ++ "\n" ++ t) ∧
    (injectTextField st t).1.focused = true ∧
    (injectTextField st t).1.caretAtEnd = true ∧
    (injectTextField st t).2
      = [InjEv.focus, InjEv.setContent (injectTextField st t).1.content,
         InjEv.caretToEnd, InjEv.dispatch "input", InjEv.dispatch "input",
         InjEv.dispatch "change", InjEv.dispatch "keydown",
         InjEv.dispatch "keyup"] := by
  refine ⟨?_, rfl, rfl, rfl⟩
  by_cases h : st.content = ""
  · have he : ("" : String).isEmpty = true := rfl
    simp [injectTextField, h, he]
  · simp [injectTextField, h, String.isEmpty_iff]

/-! ### Transcript cursor -/

theorem processResponseElement_mono (st : TTSState) (el : RElem) :
    st.lastSpokenLength ≤ (processResponseElement st el).lastSpokenLength := by
  simp only [processResponseElement]
  split
  · next h => exact Nat.le_of_lt h
  · exact Nat.le_refl _

theorem processResponseElement_from_zero (st : TTSState) (el : RElem)
    (h : st.lastSpokenLength = 0) :
    (processResponseElement st el).lastSpokenLength
      = (normalizeWS el.extracted).length := by
  simp only [processResponseElement]
  split
  · rfl
  · next hlt => omega

/-- A completed 5-character response visible on screen. -/
def respElem : RElem := { eid := 7, innerTextStr := "hello", extracted := "hello" }

/-- A DOM snapshot with no streaming turn and `respElem` as the latest
response. -/
def domWithResp : DomSnap :=
  { streaming := none, completedLatest := some respElem,
    anyResponseLatest := some respElem }

/-- C4 (counterexample): enabling speech from a disabled state does not
reset the cursor to 0 — with a visible 5-character response on screen,
`TTS.toggle` sets `lastSpokenLength` to 5, the current visible length. -/
theorem C4_toggle_counterexample :
    (TTS.toggle {} domWithResp).enabled = true ∧
    (TTS.toggle {} domWithResp).lastSpokenLength = 5 ∧
    (5 : Nat) ≠ 0 := by
  refine ⟨rfl, by decide, by decide⟩

/-- C4 (amended): within one streaming turn the cursor never decreases —
every observer run that is not a first detection of a new streaming
container leaves `lastSpokenLength` non-decreasing — the cursor is reset
to 0 exactly on first detection of a new streaming container (after which
it equals the new container's extracted length, independent of its prior
value); enabling speech from a disabled state sets the cursor to the
current visible content length (marking it already read), not to 0; and
disabling speech leaves the cursor untouched. -/
theorem tts_cursor_amended (st : TTSState) (dom : DomSnap) :
    ((∀ sv, dom.streaming = some sv → st.lastStreamingElement = some sv.eid) →
      st.lastSpokenLength ≤ (observerStep st dom).lastSpokenLength) ∧
    (∀ sv, st.enabled = true → dom.streaming = some sv →
      st.lastStreamingElement ≠ some sv.eid →
      (observerStep st dom).lastSpokenLength
        = (match sv.progressive with
           | some p => (normalizeWS p.extracted).length
           | none => 0)) ∧
    (st.enabled = false →
      (TTS.toggle st dom).lastSpokenLength
        = (match dom.streaming with
           | some sv =>
             match sv.progressive with
             | some p => p.innerTextStr.length
             | none => st.lastSpokenLength
           | none =>
             match dom.anyResponseLatest with
             | some r => r.innerTextStr.length
             | none => st.lastSpokenLength)) ∧
    (st.enabled = true →
      (TTS.toggle st dom).lastSpokenLength = st.lastSpokenLength) := by
  refine ⟨?_, ?_, ?_, ?_⟩
  · intro hsame
    by_cases he : st.enabled
    · cases hstr : dom.streaming with
      | some sv =>
        have htrack := hsame sv hstr
        simp only [observerStep, he, Bool.not_true, hstr, htrack, ne_eq,
                   not_true_eq_false, if_false, Bool.false_eq_true, ite_false]
        cases sv.progressive with
        | some p => exact processResponseElement_mono st p
        | none => exact Nat.le_refl _
      | none =>
        cases hc : dom.completedLatest with
        | some latest =>
          simp only [observerStep, he, Bool.not_true, Bool.false_eq_true,
                     if_false, hstr, hc]
          by_cases hlt : st.lastSpokenLength < latest.innerTextStr.length
          · rw [if_pos hlt]
            exact processResponseElement_mono
              ⟨true, st.unlocked, st.lastSpokenLength, st.pendingText,
               st.speakTimeout, none⟩ latest
          · rw [if_neg hlt]
        | none =>
          simp only [observerStep, he, Bool.not_true, Bool.false_eq_true,
                     if_false, hstr, hc]
          exact Nat.le_refl _
    · simp only [Bool.not_eq_true] at he
      simp [observerStep, he]
  · intro sv he hstr hnew
    cases hp : sv.progressive with
    | some p =>
      simp only [observerStep, he, Bool.not_true, Bool.false_eq_true, if_false,
                 hstr, hp]
      rw [if_pos hnew]
      exact processResponseElement_from_zero _ p rfl
    | none =>
      simp only [observerStep, he, Bool.not_true, Bool.false_eq_true, if_false,
                 hstr, hp]
      rw [if_pos hnew]
  · intro he
    cases hstr : dom.streaming with
    | some sv =>
      cases hp : sv.progressive with
      | some p => simp [TTS.toggle, he, hstr, hp]
      | none => simp [TTS.toggle, he, hstr, hp]
    | none =>
      cases ha : dom.anyResponseLatest with
      | some r => simp [TTS.toggle, he, hstr, ha]
      | none => simp [TTS.toggle, he, hstr, ha]
  · intro he
    simp [TTS.toggle, he]

/-- Witness for C4's amended theorem: enabling speech over `domWithResp`
sets the cursor to the visible response length. -/
theorem tts_cursor_amended_witness :
    (TTS.toggle {} domWithResp).lastSpokenLength = respElem.innerTextStr.length :=
  (tts_cursor_amended {} domWithResp).2.2.1 rfl

/-! ### Language detection lemmas -/

theorem maxByCount_mem (hd : LangCount) (tl : List LangCount) :
    maxByCount hd tl ∈ hd :: tl := by
  induction tl generalizing hd with
  | nil => exact List.mem_cons_self _ _
  | cons a t ih =>
    have h := ih (if a.count < hd.count then hd else a)
    rcases List.mem_cons.mp h with h1 | h1
    · rw [show maxByCount hd (a :: t)
          = maxByCount (if a.count < hd.count then hd else a) t from rfl, h1]
      split
      · exact List.mem_cons_self _ _
      · exact List.mem_cons_of_mem _ (List.mem_cons_self _ _)
    · exact List.mem_cons_of_mem _ (List.mem_cons_of_mem _ h1)

theorem maxByCount_ge (hd : LangCount) (tl : List LangCount) :
    ∀ x ∈ hd :: tl, x.count ≤ (maxByCount hd tl).count := by
  induction tl generalizing hd with
  | nil =>
    intro x hx
    rcases List.mem_cons.mp hx with h | h
    · rw [h]
      exact Nat.le_refl _
    · exact absurd h (List.not_mem_nil x)
  | cons a t ih =>
    intro x hx
    have htop : (if a.count < hd.count then hd else a).count
        ≤ (maxByCount (if a.count < hd.count then hd else a) t).count :=
      ih _ _ (List.mem_cons_self _ _)
    rcases List.mem_cons.mp hx with h | hx2
    · refine le_trans ?_ htop
      rw [h]
      split
      · exact Nat.le_refl _
      · next hnlt => exact Nat.le_of_not_lt hnlt
    · rcases List.mem_cons.mp hx2 with h | hx3
      · refine le_trans ?_ htop
        rw [h]
        split
        · next hlt => exact Nat.le_of_lt hlt
        · exact Nat.le_refl _
      · exact ih _ x (List.mem_cons_of_mem _ hx3)

/-- The patterns of the seven non-default `TTS_LANGUAGES` entries, in
source order. -/
def nonDefaultPats : List (Char → Bool) :=
  [isGermanChar, isFrenchChar, isChineseChar, isJapaneseChar, isKoreanChar,
   isArabicChar, isRussianChar]

/-- The default (English) entry of `TTS_LANGUAGES` paired with its count. -/
def englishCount (text : String) : LangCount :=
  ⟨⟨"English", isEnglishChar, "en", true⟩, matchCount isEnglishChar text⟩

theorem langCounts_mem (text : String) (lc : LangCount)
    (h : lc ∈ langCounts text) :
    (lc.lang.isDefault = false →
      lc.count ∈ nonDefaultPats.map (fun p => matchCount p text)) ∧
    (lc.lang.isDefault = true → lc.count = matchCount isEnglishChar text) := by
  simp only [langCounts, TTS_LANGUAGES, List.map_cons, List.map_nil,
             List.mem_cons, List.not_mem_nil, or_false] at h
  rcases h with h | h | h | h | h | h | h | h <;> subst h <;>
    simp [nonDefaultPats]

theorem csList_mem_exists (text : String) (c : Nat)
    (h : c ∈ nonDefaultPats.map (fun p => matchCount p text)) :
    ∃ lc ∈ langCounts text, lc.lang.isDefault = false ∧ lc.count = c := by
  simp only [nonDefaultPats, List.map_cons, List.map_nil, List.mem_cons,
             List.not_mem_nil, or_false] at h
  rcases h with h | h | h | h | h | h | h <;> subst h
  · exact ⟨⟨⟨"German", isGermanChar, "de", false⟩, matchCount isGermanChar text⟩,
      by simp [langCounts, TTS_LANGUAGES], rfl, rfl⟩
  · exact ⟨⟨⟨"French", isFrenchChar, "fr", false⟩, matchCount isFrenchChar text⟩,
      by simp [langCounts, TTS_LANGUAGES], rfl, rfl⟩
  · exact ⟨⟨⟨"Chinese", isChineseChar, "zh", false⟩, matchCount isChineseChar text⟩,
      by simp [langCounts, TTS_LANGUAGES], rfl, rfl⟩
  · exact ⟨⟨⟨"Japanese", isJapaneseChar, "ja", false⟩, matchCount isJapaneseChar text⟩,
      by simp [langCounts, TTS_LANGUAGES], rfl, rfl⟩
  · exact ⟨⟨⟨"Korean", isKoreanChar, "ko", false⟩, matchCount isKoreanChar text⟩,
      by simp [langCounts, TTS_LANGUAGES], rfl, rfl⟩
  · exact ⟨⟨⟨"Arabic", isArabicChar, "ar", false⟩, matchCount isArabicChar text⟩,
      by simp [langCounts, TTS_LANGUAGES], rfl, rfl⟩
  · exact ⟨⟨⟨"Russian", isRussianChar, "ru", false⟩, matchCount isRussianChar text⟩,
      by simp [langCounts, TTS_LANGUAGES], rfl, rfl⟩

theorem detectCore_filter_nil (text : String)
    (h : (langCounts text).filter
        (fun lc => !lc.lang.isDefault && decide (0 < lc.count)) = []) :
    detectLanguage text = englishCount text := by
  simp only [detectLanguage, detectCore]
  rw [h]
  rfl

theorem detectCore_filter_cons (text : String) (hd : LangCount)
    (tl : List LangCount)
    (h : (langCounts text).filter
        (fun lc => !lc.lang.isDefault && decide (0 < lc.count)) = hd :: tl) :
    detectLanguage text =
      (if matchCount isEnglishChar text < (maxByCount hd tl).count
       then maxByCount hd tl
       else englishCount text) := by
  simp only [detectLanguage, detectCore]
  rw [h]
  rfl

/-- C5: for every text, with per-language character-match counts over the
configured patterns, the selected language is the default (English) entry
whenever no non-default language's count strictly exceeds the default's
(ties with the default go to the default); and whenever some non-default
count strictly exceeds the default's, a non-default language is selected
whose count is the maximum of the non-default counts and strictly exceeds
the default's count. -/
theorem language_selection (text : String) :
    ((∀ c ∈ nonDefaultPats.map (fun p => matchCount p text),
        c ≤ matchCount isEnglishChar text) →
      detectLanguage text = englishCount text) ∧
    ((∃ c ∈ nonDefaultPats.map (fun p => matchCount p text),
        matchCount isEnglishChar text < c) →
      (detectLanguage text).lang.isDefault = false ∧
      (detectLanguage text).count
        ∈ nonDefaultPats.map (fun p => matchCount p text) ∧
      (∀ c ∈ nonDefaultPats.map (fun p => matchCount p text),
        c ≤ (detectLanguage text).count) ∧
      matchCount isEnglishChar text < (detectLanguage text).count) := by
  constructor
  · intro hall
    cases hnd : (langCounts text).filter
        (fun lc => !lc.lang.isDefault && decide (0 < lc.count)) with
    | nil => exact detectCore_filter_nil text hnd
    | cons hd tl =>
      rw [detectCore_filter_cons text hd tl hnd]
      have hmem : maxByCount hd tl ∈ (langCounts text).filter
          (fun lc => !lc.lang.isDefault && decide (0 < lc.count)) := by
        rw [hnd]
        exact maxByCount_mem hd tl
      have hmf := List.mem_filter.mp hmem
      have hndft : (maxByCount hd tl).lang.isDefault = false := by
        have h2 := hmf.2
        simp only [Bool.and_eq_true, Bool.not_eq_true', decide_eq_true_eq] at h2
        exact h2.1
      have hcs : (maxByCount hd tl).count
          ∈ nonDefaultPats.map (fun p => matchCount p text) :=
        (langCounts_mem text _ hmf.1).1 hndft
      rw [if_neg (Nat.not_lt.mpr (hall _ hcs))]
  · rintro ⟨c, hcmem, hcgt⟩
    obtain ⟨lc, hlcmem, hlcnd, hlccnt⟩ := csList_mem_exists text c hcmem
    have hpred : (!lc.lang.isDefault && decide (0 < lc.count)) = true := by
      rw [hlcnd, hlccnt]
      simp only [Bool.not_false, Bool.true_and, decide_eq_true_eq]
      omega
    have hinf : lc ∈ (langCounts text).filter
        (fun lc => !lc.lang.isDefault && decide (0 < lc.count)) :=
      List.mem_filter.mpr ⟨hlcmem, hpred⟩
    cases hnd : (langCounts text).filter
        (fun lc => !lc.lang.isDefault && decide (0 < lc.count)) with
    | nil =>
      rw [hnd] at hinf
      exact absurd hinf (List.not_mem_nil lc)
    | cons hd tl =>
      rw [hnd] at hinf
      have htopge : lc.count ≤ (maxByCount hd tl).count :=
        maxByCount_ge hd tl lc hinf
      have hgt : matchCount isEnglishChar text < (maxByCount hd tl).count :=
        Nat.lt_of_lt_of_le (hlccnt ▸ hcgt) htopge
      rw [detectCore_filter_cons text hd tl hnd, if_pos hgt]
      have hmem : maxByCount hd tl ∈ (langCounts text).filter
          (fun lc => !lc.lang.isDefault && decide (0 < lc.count)) := by
        rw [hnd]
        exact maxByCount_mem hd tl
      have hmf := List.mem_filter.mp hmem
      have hndft : (maxByCount hd tl).lang.isDefault = false := by
        have h2 := hmf.2
        simp only [Bool.and_eq_true, Bool.not_eq_true', decide_eq_true_eq] at h2
        exact h2.1
      refine ⟨hndft, (langCounts_mem text _ hmf.1).1 hndft, ?_, hgt⟩
      intro c2 hc2
      obtain ⟨lc2, hm2, hnd2, hcnt2⟩ := csList_mem_exists text c2 hc2
      by_cases hz : 0 < c2
      · have hpred2 : (!lc2.lang.isDefault && decide (0 < lc2.count)) = true := by
          rw [hnd2, hcnt2]
          simp only [Bool.not_false, Bool.true_and, decide_eq_true_eq]
          exact hz
        have hin2 : lc2 ∈ hd :: tl := by
          rw [← hnd]
          exact List.mem_filter.mpr ⟨hm2, hpred2⟩
        have hle2 := maxByCount_ge hd tl lc2 hin2
        omega
      · omega

/-- Witness for C5 at the concrete text "hi привет" (6 Cyrillic characters
beat 2 Latin characters). -/
theorem language_selection_witness :
    (detectLanguage "hi привет").lang.isDefault = false ∧
    (detectLanguage "hi привет").count
      ∈ nonDefaultPats.map (fun p => matchCount p "hi привет") ∧
    (∀ c ∈ nonDefaultPats.map (fun p => matchCount p "hi привет"),
      c ≤ (detectLanguage "hi привет").count) ∧
    matchCount isEnglishChar "hi привет" < (detectLanguage "hi привет").count :=
  (language_selection "hi привет").2 ⟨6, by decide, by decide⟩

end Bridge
